import Mathlib

/-!
Shallow embedding of the harvey slide-file loader.

The embedding covers:
* `src/src/yaml.rs` — the process-wide provenance registry (`SOURCES`) and the
  provenance-tagging parse entry points `from_source` / `node_from_source`.
  The external `marked_yaml` parser is abstracted as a function parameter
  `parse : Nat → String → Except E N` (first argument: the source handle
  passed to `parse_yaml_with_options`); the registry is threaded explicitly
  as a `List YamlSource` instead of the Rust global `Mutex<Vec<YamlSource>>`.
* `src/src/formats/slides.rs` — the five-state line scanner of
  `SlideFile::load`.  File I/O (`std::fs::read_to_string`) is outside the
  model: the embedded loader starts from the file's text, so the `IO` error
  variant of `SlideLoadError` can never arise and is omitted.

Rust strings are modelled as Lean `String`s; `str::lines` is modelled by
`rustLines` below (split at `'\n'`, strip one `'\r'` before each split
point, optional final line terminator).
-/

namespace Harvey

/-! ## Rust `str::lines` -/

/-- Drop a single trailing carriage return, as Rust's `lines` iterator does
to each piece that was terminated by a line feed. -/
def stripTrailingCR (l : List Char) : List Char :=
  if l.getLast? = some '\r' then l.dropLast else l

/-- Worker for `rustLines`: `acc` holds the chars of the current line in
reverse.  A piece that is terminated by `'\n'` has a trailing `'\r'`
stripped; a final piece with no terminator is kept verbatim, and a trailing
line terminator produces no extra empty line. -/
def linesAux : List Char → List Char → List (List Char)
  | acc, [] => if acc.isEmpty then [] else [acc.reverse]
  | acc, '\n' :: rest => stripTrailingCR acc.reverse :: linesAux [] rest
  | acc, c :: rest => linesAux (c :: acc) rest

/-- Model of Rust `str::lines` (used by `SlideFile::load` as `text.lines()`). -/
def rustLines (s : String) : List String :=
  (linesAux [] s.data).map (fun l => String.mk l)

/-! ## `src/yaml.rs`: provenance registry and parse entry points -/

/-- A source of YAML data (`yaml.rs`, `enum YamlSource`).  `Arc<Path>` /
`PathBuf` are modelled as `String`. -/
inductive YamlSource where
  /-- Directly loaded from a file on disk -/
  | DiskFile (path : String)
  /-- Loaded from an embedded resource -/
  | Resource (name : String)
  /-- Loaded as slide metadata: file, slide number in the file, line offset -/
  | Slide (file : String) (slidenr : Nat) (lineoffset : Nat)
  deriving DecidableEq

/-- `yaml.rs::node_from_source`.  The Rust body reads the registry length,
calls `parse_yaml_with_options(sources.len(), content, options)` and — only
when that call returned `Ok`, because `?` returns early — pushes `source`
onto the registry.  `parse` abstracts `parse_yaml_with_options` applied to
the fixed `LoaderOptions`; the embedding returns the parse result together
with the updated registry. -/
def node_from_source {N E : Type} (parse : Nat → String → Except E N)
    (sources : List YamlSource) (source : YamlSource) (content : String) :
    Except E N × List YamlSource :=
  match parse sources.length content with
  | .ok ret => (.ok ret, sources ++ [source])
  | .error e => (.error e, sources)

/-- `yaml.rs::from_source`: same shape as `node_from_source`, with
`from_yaml_with_options` (deserialisation to `T`) abstracted as `deser`. -/
def from_source {T E : Type} (deser : Nat → String → Except E T)
    (sources : List YamlSource) (source : YamlSource) (content : String) :
    Except E T × List YamlSource :=
  match deser sources.length content with
  | .ok ret => (.ok ret, sources ++ [source])
  | .error e => (.error e, sources)

/-! ## `src/formats/slides.rs`: data model -/

/-- A single slide (`struct SlideContent`); the `marked_yaml::Node` metadata
type is abstracted as `N`. -/
structure SlideContent (N : Type) where
  meta : N
  lineno : Nat
  parts : List String
  notes : String
  deriving DecidableEq

/-- A file of slides (`struct SlideFile`). -/
structure SlideFile (N : Type) where
  fname : String
  slides : List (SlideContent N)
  deriving DecidableEq

/-- Errors which can happen while loading slides (`enum SlideLoadError`).
The `IO` variant is unreachable once the file's text is in hand and is not
modelled; `marked_yaml::LoadError` is abstracted as `E`. -/
inductive SlideLoadError (E : Type) where
  /-- The initial delimiter is missing from the file -/
  | MissingInitialDelimiter
  /-- The metadata started at the given line number (1-indexed) is incomplete -/
  | IncompleteMetadata (lineno : Nat)
  /-- The metadata started at the given line number (1-indexed) is bad YAML -/
  | BadMetadata (lineno : Nat) (cause : E)
  deriving DecidableEq

/-! ## The parsing state machine -/

/-- The scanner mode (`enum ParseMode` local to `SlideFile::load`). -/
inductive ParseMode (N : Type) where
  | Initial
  | Metadata (ofs : Nat) (delim : String) (rawMeta : String)
  | CapturingSlide (slide : SlideContent N)
  | CapturingNotes (slide : SlideContent N)
  | Aborting
  deriving DecidableEq

/-- The mutable loop state of `SlideFile::load`: the slides accumulated in
`ret.slides`, the error list `errs`, the current `mode`, and the global
provenance registry threaded through `yaml::node_from_source`. -/
structure ScanState (N E : Type) where
  slides : List (SlideContent N)
  errs : List (SlideLoadError E)
  mode : ParseMode N
  sources : List YamlSource
  deriving DecidableEq

/-- The delimiter test, `line.chars().all(|c| c == '-')`, written identically
at the `Initial`, `CapturingSlide`, `CapturingNotes` and `Aborting` sites of
`SlideFile::load`.  Note it is vacuously true of the empty line. -/
def isDelimiter (line : String) : Bool :=
  line.data.all (fun c => c == '-')

/-- The state entered at each delimiter site:
`if line.len() > 3 { Metadata(raw_lineofs, "...", String::new()) } else
{ Metadata(raw_lineofs, "", String::new()) }` — this `if` appears verbatim at
all four sites of `SlideFile::load`.  (`line.len()` is a byte count, but the
branch is only reached on all-`'-'` lines, where bytes and chars agree.) -/
def openMetadata {N : Type} (lineofs : Nat) (line : String) : ParseMode N :=
  if line.length > 3 then .Metadata lineofs "..." ""
  else .Metadata lineofs "" ""

/-- `writeln!(buf, "{}", line)`: append the line and a `'\n'`. -/
def writelnStr (buf line : String) : String :=
  buf ++ line ++ "\n"

/-- `slide.parts.last_mut().unwrap()` followed by `writeln!`: append
`line ++ "\n"` to the last part.  The Rust `unwrap` is guarded by the
invariant that `parts` is never empty (a new slide starts with one empty
part and parts are only ever pushed); `getLastD` makes the model total. -/
def pushLineToLastPart (parts : List String) (line : String) : List String :=
  parts.dropLast ++ [writelnStr (parts.getLastD "") line]

/-- One iteration of the `for (raw_lineofs, line) in text.lines().enumerate()`
loop of `SlideFile::load`.  Returns `none` exactly for the `break` in the
`Initial` arm (first line is not a delimiter); otherwise the next state. -/
def stepLine {N E : Type} (parse : Nat → String → Except E N) (fname : String)
    (st : ScanState N E) (lineofs : Nat) (line : String) :
    Option (ScanState N E) :=
  match st.mode with
  | .Initial =>
      if !isDelimiter line then none
      else some { st with mode := openMetadata lineofs line }
  | .Metadata ofs delim rawMeta =>
      if line = delim then
        match node_from_source parse st.sources
            (.Slide fname (st.slides.length + 1) lineofs) rawMeta with
        | (.ok node, sources') =>
            some { st with
                     mode := .CapturingSlide
                       { meta := node, lineno := ofs + 1
                         parts := [""], notes := "" }
                     sources := sources' }
        | (.error e, sources') =>
            some { st with
                     errs := st.errs ++ [.BadMetadata (ofs + 1) e]
                     mode := .Aborting
                     sources := sources' }
      else
        some { st with mode := .Metadata ofs delim (rawMeta ++ line ++ "\n") }
  | .CapturingSlide slide =>
      if line = "***" then
        some { st with
                 mode := .CapturingSlide { slide with parts := slide.parts ++ [""] } }
      else if line = "???" then
        some { st with mode := .CapturingNotes slide }
      else if isDelimiter line then
        some { st with slides := st.slides ++ [slide], mode := openMetadata lineofs line }
      else
        some { st with
                 mode := .CapturingSlide
                   { slide with parts := pushLineToLastPart slide.parts line } }
  | .CapturingNotes slide =>
      if isDelimiter line then
        some { st with slides := st.slides ++ [slide], mode := openMetadata lineofs line }
      else
        some { st with
                 mode := .CapturingNotes { slide with notes := writelnStr slide.notes line } }
  | .Aborting =>
      if isDelimiter line then
        some { st with mode := openMetadata lineofs line }
      else
        some st

/-- The whole scanning loop: process the enumerated lines in order; a `none`
from `stepLine` is the `break` — the remaining lines are not examined and
the state (still in `Initial` mode) is returned as is. -/
def processLines {N E : Type} (parse : Nat → String → Except E N) (fname : String) :
    ScanState N E → List (Nat × String) → ScanState N E
  | st, [] => st
  | st, (ofs, line) :: rest =>
      match stepLine parse fname st ofs line with
      | none => st
      | some st' => processLines parse fname st' rest

/-- The `match mode` after the loop in `SlideFile::load` (end-of-input
finalization). -/
def finalizeScan {N E : Type} (st : ScanState N E) : ScanState N E :=
  match st.mode with
  | .Initial => { st with errs := st.errs ++ [.MissingInitialDelimiter] }
  | .Metadata ofs _ _ => { st with errs := st.errs ++ [.IncompleteMetadata (ofs + 1)] }
  | .CapturingSlide slide => { st with slides := st.slides ++ [slide] }
  | .CapturingNotes slide => { st with slides := st.slides ++ [slide] }
  | .Aborting => st

/-- Initial loop state: no slides, no errors, `Initial` mode, and whatever
the process-wide registry currently holds. -/
def initState {N E : Type} (sources₀ : List YamlSource) : ScanState N E :=
  { slides := [], errs := [], mode := .Initial, sources := sources₀ }

/-- The full scan of a file's text (the loop plus end-of-input handling). -/
def scanFile {N E : Type} (parse : Nat → String → Except E N) (fname : String)
    (sources₀ : List YamlSource) (text : String) : ScanState N E :=
  finalizeScan (processLines parse fname (initState sources₀) (rustLines text).enum)

/-- `SlideFile::load`, starting from the file's text (I/O is outside the
model): run the scanner, then
`if errs.is_empty() { Ok(ret) } else { Err(errs) }`. -/
def SlideFile.load {N E : Type} (parse : Nat → String → Except E N) (fname : String)
    (sources₀ : List YamlSource) (text : String) :
    Except (List (SlideLoadError E)) (SlideFile N) :=
  let st := scanFile parse fname sources₀ text
  if st.errs.isEmpty then .ok { fname := fname, slides := st.slides }
  else .error st.errs

/-- A metadata parser that always succeeds, for concrete runs. -/
def okParse : Nat → String → Except Unit Unit := fun _ _ => .ok ()

/-- A metadata parser that always fails, for concrete runs. -/
def failParse : Nat → String → Except Unit Unit := fun _ _ => .error ()

example : rustLines "a\r\nb\nc" = ["a", "b", "c"] := by decide
example : rustLines "a\nb\n" = ["a", "b"] := by decide
example : rustLines "" = [] := by decide
example : isDelimiter "" = true := by decide
example : isDelimiter "---" = true := by decide
example : isDelimiter "--x" = false := by decide

example :
    SlideFile.load okParse "f" [] "---\na: 1\n\nbody\n" =
      .ok { fname := "f"
            slides := [{ meta := (), lineno := 1, parts := ["body\n"], notes := "" }] } := by
  rfl

/-! ## Helper lemmas -/

/-- `node_from_source` in terms of the underlying parse call: the handle
passed down is the registry length, and the registry is extended exactly on
success. -/
theorem node_from_source_eq {N E : Type} (parse : Nat → String → Except E N)
    (sources : List YamlSource) (source : YamlSource) (content : String) :
    node_from_source parse sources source content =
      (parse sources.length content,
       match parse sources.length content with
       | .ok _ => sources ++ [source]
       | .error _ => sources) := by
  unfold node_from_source
  cases parse sources.length content <;> rfl

theorem string_data_append (s t : String) : (s ++ t).data = s.data ++ t.data := by
  cases s; cases t; rfl

/-! ## Scan invariants -/

/-- A stored text block is `'\n'`-terminated or empty — equivalently, it is
a concatenation of `writeln`-appended lines. -/
def nlTerminated (s : String) : Bool :=
  s.data.isEmpty || s.data.getLast? == some '\n'

theorem nlTerminated_writeln (buf line : String) :
    nlTerminated (writelnStr buf line) = true := by
  have hnl : ("\n" : String).data = ['\n'] := rfl
  have h : (writelnStr buf line).data = (buf.data ++ line.data) ++ ['\n'] := by
    simp [writelnStr, string_data_append, hnl]
  simp [nlTerminated, h, List.getLast?_concat]

/-- The shape every slide built by the scanner keeps: non-empty `parts`,
every part `'\n'`-terminated or empty, `notes` `'\n'`-terminated or empty. -/
def SlideOk {N : Type} (s : SlideContent N) : Prop :=
  s.parts ≠ [] ∧ (∀ p ∈ s.parts, nlTerminated p = true) ∧ nlTerminated s.notes = true

/-- The in-progress slide of a capturing mode, if any. -/
def modeSlide? {N : Type} : ParseMode N → Option (SlideContent N)
  | .CapturingSlide s => some s
  | .CapturingNotes s => some s
  | _ => none

theorem modeSlide?_openMetadata {N : Type} (lineofs : Nat) (line : String) :
    modeSlide? (openMetadata (N := N) lineofs line) = none := by
  unfold openMetadata; split <;> rfl

theorem openMetadata_ne_capturingSlide {N : Type} (lineofs : Nat) (line : String)
    (s : SlideContent N) : openMetadata (N := N) lineofs line ≠ .CapturingSlide s := by
  unfold openMetadata; split <;> simp

/-- Invariant maintained throughout the scanning loop: all finished and
in-progress slides are well-shaped, and while fragments are being captured
(before any `"???"`) the in-progress slide's notes are empty. -/
def ScanInv {N E : Type} (st : ScanState N E) : Prop :=
  (∀ s ∈ st.slides, SlideOk s)
  ∧ (∀ s, modeSlide? st.mode = some s → SlideOk s)
  ∧ (∀ s, st.mode = .CapturingSlide s → s.notes = "")

theorem scanInv_openMeta {N E : Type} {slides : List (SlideContent N)}
    {errs : List (SlideLoadError E)} {sources : List YamlSource}
    (lineofs : Nat) (line : String) (h1 : ∀ s ∈ slides, SlideOk s) :
    ScanInv ⟨slides, errs, openMetadata lineofs line, sources⟩ :=
  ⟨h1, fun s hms => by rw [modeSlide?_openMetadata] at hms; exact Option.noConfusion hms,
   fun s hc => absurd hc (openMetadata_ne_capturingSlide _ _ _)⟩

theorem slideOk_new {N : Type} (node : N) (lineno : Nat) :
    SlideOk { meta := node, lineno := lineno, parts := [""], notes := "" } := by
  refine ⟨by simp, ?_, rfl⟩
  intro p hp
  simp at hp
  subst hp
  decide

theorem slideOk_pushPart {N : Type} {s : SlideContent N} (h : SlideOk s) :
    SlideOk { s with parts := s.parts ++ [""] } := by
  obtain ⟨h1, h2, h3⟩ := h
  refine ⟨by simp, ?_, h3⟩
  intro p hp
  rcases List.mem_append.mp hp with hp | hp
  · exact h2 p hp
  · simp at hp; subst hp; decide

theorem slideOk_pushLine {N : Type} {s : SlideContent N} (h : SlideOk s) (line : String) :
    SlideOk { s with parts := pushLineToLastPart s.parts line } := by
  obtain ⟨h1, h2, h3⟩ := h
  refine ⟨by simp [pushLineToLastPart], ?_, h3⟩
  intro p hp
  rcases List.mem_append.mp hp with hp | hp
  · exact h2 p (List.dropLast_subset _ hp)
  · simp at hp; subst hp; exact nlTerminated_writeln _ _

theorem slideOk_pushNotes {N : Type} {s : SlideContent N} (h : SlideOk s) (line : String) :
    SlideOk { s with notes := writelnStr s.notes line } :=
  ⟨h.1, h.2.1, nlTerminated_writeln _ _⟩

/-- One loop iteration preserves the invariant. -/
theorem stepLine_inv {N E : Type} {parse : Nat → String → Except E N} {fname : String}
    {st st' : ScanState N E} {lineofs : Nat} {line : String}
    (h : ScanInv st) (hs : stepLine parse fname st lineofs line = some st') :
    ScanInv st' := by
  obtain ⟨h1, h2, h3⟩ := h
  obtain ⟨slides, errs, mode, sources⟩ := st
  cases mode with
  | Initial =>
      simp only [stepLine] at hs
      split at hs
      · exact Option.noConfusion hs
      · obtain rfl := Option.some.inj hs
        exact scanInv_openMeta lineofs line h1
  | Metadata ofs delim rawMeta =>
      simp only [stepLine] at hs
      split at hs
      · rw [node_from_source_eq] at hs
        cases hp : parse sources.length rawMeta with
        | ok node =>
            rw [hp] at hs
            obtain rfl := Option.some.inj hs
            refine ⟨h1, ?_, ?_⟩
            · intro s hms
              simp only [modeSlide?, Option.some.injEq] at hms
              subst hms
              exact slideOk_new node (ofs + 1)
            · intro s hc
              injection hc with hc
              subst hc
              rfl
        | error e =>
            rw [hp] at hs
            obtain rfl := Option.some.inj hs
            exact ⟨h1, fun s hms => by simp [modeSlide?] at hms,
                   fun s hc => by simp at hc⟩
      · obtain rfl := Option.some.inj hs
        exact ⟨h1, fun s hms => by simp [modeSlide?] at hms,
               fun s hc => by simp at hc⟩
  | CapturingSlide slide =>
      have hok : SlideOk slide := h2 slide rfl
      have hnotes : slide.notes = "" := h3 slide rfl
      simp only [stepLine] at hs
      split at hs
      · obtain rfl := Option.some.inj hs
        refine ⟨h1, ?_, ?_⟩
        · intro s hms
          simp only [modeSlide?, Option.some.injEq] at hms
          subst hms
          exact slideOk_pushPart hok
        · intro s hc
          injection hc with hc
          subst hc
          exact hnotes
      · split at hs
        · obtain rfl := Option.some.inj hs
          refine ⟨h1, ?_, ?_⟩
          · intro s hms
            simp only [modeSlide?, Option.some.injEq] at hms
            subst hms
            exact hok
          · intro s hc
            simp at hc
        · split at hs
          · obtain rfl := Option.some.inj hs
            refine scanInv_openMeta lineofs line ?_
            intro s hsm
            rcases List.mem_append.mp hsm with hm | hm
            · exact h1 s hm
            · simp at hm; subst hm; exact hok
          · obtain rfl := Option.some.inj hs
            refine ⟨h1, ?_, ?_⟩
            · intro s hms
              simp only [modeSlide?, Option.some.injEq] at hms
              subst hms
              exact slideOk_pushLine hok line
            · intro s hc
              injection hc with hc
              subst hc
              exact hnotes
  | CapturingNotes slide =>
      have hok : SlideOk slide := h2 slide rfl
      simp only [stepLine] at hs
      split at hs
      · obtain rfl := Option.some.inj hs
        refine scanInv_openMeta lineofs line ?_
        intro s hsm
        rcases List.mem_append.mp hsm with hm | hm
        · exact h1 s hm
        · simp at hm; subst hm; exact hok
      · obtain rfl := Option.some.inj hs
        refine ⟨h1, ?_, ?_⟩
        · intro s hms
          simp only [modeSlide?, Option.some.injEq] at hms
          subst hms
          exact slideOk_pushNotes hok line
        · intro s hc
          simp at hc
  | Aborting =>
      simp only [stepLine] at hs
      split at hs
      · obtain rfl := Option.some.inj hs
        exact scanInv_openMeta lineofs line h1
      · obtain rfl := Option.some.inj hs
        exact ⟨h1, fun s hms => by simp [modeSlide?] at hms, fun s hc => by simp at hc⟩

theorem initState_inv {N E : Type} (sources₀ : List YamlSource) :
    ScanInv (initState (N := N) (E := E) sources₀) :=
  ⟨by simp [initState], fun s hms => by simp [initState, modeSlide?] at hms,
   fun s hc => by simp [initState] at hc⟩

theorem processLines_inv {N E : Type} (parse : Nat → String → Except E N)
    (fname : String) (ls : List (Nat × String)) :
    ∀ st : ScanState N E, ScanInv st → ScanInv (processLines parse fname st ls) := by
  induction ls with
  | nil => intro st h; exact h
  | cons hd tl ih =>
      intro st h
      obtain ⟨ofs, line⟩ := hd
      simp only [processLines]
      cases hstep : stepLine parse fname st ofs line with
      | none => exact h
      | some st' => exact ih st' (stepLine_inv h hstep)

theorem finalizeScan_slideOk {N E : Type} {st : ScanState N E} (h : ScanInv st) :
    ∀ s ∈ (finalizeScan st).slides, SlideOk s := by
  obtain ⟨h1, h2, h3⟩ := h
  obtain ⟨slides, errs, mode, sources⟩ := st
  cases mode with
  | Initial => intro s hm; exact h1 s hm
  | Metadata ofs delim rawMeta => intro s hm; exact h1 s hm
  | CapturingSlide slide =>
      intro s hm
      simp only [finalizeScan] at hm
      rcases List.mem_append.mp hm with hm | hm
      · exact h1 s hm
      · simp at hm; subst hm; exact h2 _ rfl
  | CapturingNotes slide =>
      intro s hm
      simp only [finalizeScan] at hm
      rcases List.mem_append.mp hm with hm | hm
      · exact h1 s hm
      · simp at hm; subst hm; exact h2 _ rfl
  | Aborting => intro s hm; exact h1 s hm

/-- A successful load returns exactly the scanned slides. -/
theorem load_ok_slides {N E : Type} {parse : Nat → String → Except E N}
    {fname : String} {sources₀ : List YamlSource} {text : String} {deck : SlideFile N}
    (h : SlideFile.load parse fname sources₀ text = .ok deck) :
    deck.slides = (scanFile parse fname sources₀ text).slides := by
  simp only [SlideFile.load] at h
  split at h
  · injection h with h'
    rw [← h']
  · exact Except.noConfusion h

/-! ## Claims about the provenance registry (`yaml.rs`) -/

/-- C2 (counterexample): a failed parse attempt registers NO provenance
record — `?` returns from `node_from_source` before `sources.push(source)` —
so the registry stays at length 0 where the claim demands length 1. -/
theorem failed_parse_no_registration_cex :
    node_from_source failParse [] (YamlSource.Resource "r") "x" = (.error (), [])
    ∧ (node_from_source failParse [] (YamlSource.Resource "r") "x").2.length = 0
    ∧ ¬(node_from_source failParse [] (YamlSource.Resource "r") "x").2.length = 1 := by
  refine ⟨rfl, rfl, ?_⟩
  intro h
  simp [node_from_source, failParse] at h

/-- C2 (amended): on every call of `node_from_source` / `from_source` whose
parse succeeds, exactly one new `ProvenanceRecord` is appended to the
registry and its handle — the value handed to the grammar layer — is the
registry's length at the moment of the call; on a failed parse the registry
is left unchanged and nothing is registered. -/
theorem registration_on_success_only {N T E F : Type}
    (parse : Nat → String → Except E N) (deser : Nat → String → Except F T)
    (sources : List YamlSource) (source : YamlSource) (content : String) :
    (∀ node, parse sources.length content = .ok node →
      node_from_source parse sources source content = (.ok node, sources ++ [source]))
    ∧ (∀ e, parse sources.length content = .error e →
      node_from_source parse sources source content = (.error e, sources))
    ∧ (∀ t, deser sources.length content = .ok t →
      from_source deser sources source content = (.ok t, sources ++ [source]))
    ∧ (∀ e, deser sources.length content = .error e →
      from_source deser sources source content = (.error e, sources))
    ∧ (sources ++ [source])[sources.length]? = some source := by
  refine ⟨?_, ?_, ?_, ?_, ?_⟩
  · intro node h; simp [node_from_source, h]
  · intro e h; simp [node_from_source, h]
  · intro t h; simp [from_source, h]
  · intro e h; simp [from_source, h]
  · simp

/-- C2 (witness): concrete successful and failed calls. -/
theorem registration_on_success_only_witness :
    node_from_source okParse [] (YamlSource.Resource "r") "x" =
      (.ok (), [YamlSource.Resource "r"])
    ∧ node_from_source failParse [] (YamlSource.Resource "q") "y" = (.error (), []) :=
  ⟨(registration_on_success_only okParse okParse [] (YamlSource.Resource "r") "x").1 () rfl,
   (registration_on_success_only failParse failParse [] (YamlSource.Resource "q") "y").2.1 () rfl⟩

/-- C4: the registry is append-only and monotonically growing: a call leaves
the old records untouched as a prefix, a registration appends the record at
index `sources.length` (which is exactly its handle), nothing is ever
removed, deduplicated or reassigned, and after a registration the length has
strictly grown, so any later registration gets a strictly larger handle. -/
theorem registry_append_only {N E : Type} (parse : Nat → String → Except E N)
    (sources : List YamlSource) (source : YamlSource) (content : String) :
    (∃ tail, (node_from_source parse sources source content).2 = sources ++ tail
       ∧ (tail = [] ∨ tail = [source]))
    ∧ ((node_from_source parse sources source content).1.isOk = true →
        (node_from_source parse sources source content).2 = sources ++ [source]
        ∧ (node_from_source parse sources source content).2[sources.length]? = some source
        ∧ (node_from_source parse sources source content).2.length = sources.length + 1)
    ∧ ((node_from_source parse sources source content).1.isOk = false →
        (node_from_source parse sources source content).2 = sources)
    ∧ ((node_from_source parse sources source content).1.isOk = true →
        sources.length < (node_from_source parse sources source content).2.length) := by
  rw [node_from_source_eq]
  cases parse sources.length content with
  | ok node =>
      refine ⟨⟨[source], rfl, Or.inr rfl⟩, ?_, ?_, ?_⟩ <;> intro h <;> simp_all [Except.isOk, Except.toBool]
  | error e =>
      refine ⟨⟨[], by simp, Or.inl rfl⟩, ?_, ?_, ?_⟩ <;> intro h <;> simp_all [Except.isOk, Except.toBool]

/-- C4 (witness): a concrete successful registration appends at index 0 of
an empty registry and grows it to length 1. -/
theorem registry_append_only_witness :
    (node_from_source okParse [] (YamlSource.Resource "r") "x").2 =
      [] ++ [YamlSource.Resource "r"]
    ∧ (node_from_source okParse [] (YamlSource.Resource "r") "x").2[
        ([] : List YamlSource).length]? = some (YamlSource.Resource "r")
    ∧ (node_from_source okParse [] (YamlSource.Resource "r") "x").2.length =
        ([] : List YamlSource).length + 1 :=
  (registry_append_only okParse [] (YamlSource.Resource "r") "x").2.1 rfl

/-! ## Claims about the slide scanner -/

/-- C1 (counterexample): the scanner's delimiter test
`line.chars().all(|c| c == '-')` is vacuously true of the empty line, so an
empty line in a slide body finalizes the slide and opens a new metadata
block, contradicting "the empty line is NOT a delimiter / is ordinary
content".  Concretely, on `"---\na: 1\n\nbody\n\nmore\n"` the blank line at
offset 4 closes the slide and leaves an unterminated metadata block, so the
load fails with `IncompleteMetadata 5` instead of returning one slide whose
body is `"body\n\nmore\n"`. -/
theorem emptyLine_delimiter_cex :
    isDelimiter "" = true
    ∧ SlideFile.load okParse "f" [] "---\na: 1\n\nbody\n\nmore\n" =
        .error [SlideLoadError.IncompleteMetadata 5] :=
  ⟨rfl, rfl⟩

/-- C5: whenever a line equal to the current terminator closes an open
metadata block, the metadata parser is invoked with provenance
`YamlSource.Slide (file, slides collected so far + 1, the TERMINATOR line's
offset)` — on success that exact record is registered and the new slide's
`lineno` is the OPENING delimiter's 1-based line; on failure a
`BadMetadata` error at the opening line is recorded and nothing is
registered. -/
theorem metadata_close_provenance {N E : Type} (parse : Nat → String → Except E N)
    (fname : String) (slides : List (SlideContent N)) (errs : List (SlideLoadError E))
    (sources : List YamlSource) (ofs lineofs : Nat) (delim rawMeta : String) :
    (∀ node, parse sources.length rawMeta = .ok node →
      stepLine parse fname ⟨slides, errs, .Metadata ofs delim rawMeta, sources⟩ lineofs delim =
        some ⟨slides, errs,
          .CapturingSlide { meta := node, lineno := ofs + 1, parts := [""], notes := "" },
          sources ++ [YamlSource.Slide fname (slides.length + 1) lineofs]⟩)
    ∧ (∀ e, parse sources.length rawMeta = .error e →
      stepLine parse fname ⟨slides, errs, .Metadata ofs delim rawMeta, sources⟩ lineofs delim =
        some ⟨slides, errs ++ [.BadMetadata (ofs + 1) e], .Aborting, sources⟩) := by
  constructor <;> intro x h <;> simp [stepLine, node_from_source, h]

/-- C5 (witness): opening delimiter at offset 0, terminator at offset 2 —
the registered record carries offset 2 (the terminator's), while the slide's
`lineno` is 1 (the opener's line, 1-based). -/
theorem metadata_close_provenance_witness :
    stepLine okParse "f"
        ⟨[], [], .Metadata 0 "" "a: 1\n", []⟩ 2 "" =
      some ⟨[], [],
        .CapturingSlide { meta := (), lineno := 1, parts := [""], notes := "" },
        [YamlSource.Slide "f" 1 2]⟩ :=
  (metadata_close_provenance okParse "f" [] [] [] 0 2 "" "a: 1\n").1 () rfl

/-- C6: a delimiter line of length ≤ 3 opens a metadata block whose
terminator is the empty line; length > 3 selects the literal `"..."` — and
this is exactly what happens at each of the four delimiter sites
(`Initial`, `CapturingSlide`, `CapturingNotes`, `Aborting`). -/
theorem delimiter_terminator_choice {N E : Type} (parse : Nat → String → Except E N)
    (fname : String) (st : ScanState N E) (lineofs : Nat) (line : String)
    (slide : SlideContent N) (h : isDelimiter line = true) :
    ((line.length ≤ 3 → openMetadata (N := N) lineofs line = .Metadata lineofs "" "")
      ∧ (3 < line.length → openMetadata (N := N) lineofs line = .Metadata lineofs "..." ""))
    ∧ (st.mode = .Initial →
        stepLine parse fname st lineofs line = some { st with mode := openMetadata lineofs line })
    ∧ (st.mode = .CapturingSlide slide →
        stepLine parse fname st lineofs line =
          some { st with slides := st.slides ++ [slide], mode := openMetadata lineofs line })
    ∧ (st.mode = .CapturingNotes slide →
        stepLine parse fname st lineofs line =
          some { st with slides := st.slides ++ [slide], mode := openMetadata lineofs line })
    ∧ (st.mode = .Aborting →
        stepLine parse fname st lineofs line = some { st with mode := openMetadata lineofs line }) := by
  have hstar : line ≠ "***" := by
    intro e; subst e; simp [isDelimiter] at h
  have hquery : line ≠ "???" := by
    intro e; subst e; simp [isDelimiter] at h
  refine ⟨⟨?_, ?_⟩, ?_, ?_, ?_, ?_⟩
  · intro hl; simp [openMetadata, Nat.not_lt.mpr hl]
  · intro hl; simp [openMetadata, hl]
  all_goals intro hm
  all_goals simp [stepLine, hm, h, hstar, hquery]

/-- C6 (witness): a length-4 delimiter selects terminator `"..."`, a
length-3 delimiter selects the empty-line terminator (here from `Initial`). -/
theorem delimiter_terminator_choice_witness :
    stepLine okParse "f" (initState ([] : List YamlSource)) 0 "----" =
      some { initState ([] : List YamlSource) with mode := ParseMode.Metadata 0 "..." "" }
    ∧ stepLine okParse "f" (initState ([] : List YamlSource)) 0 "---" =
      some { initState ([] : List YamlSource) with mode := ParseMode.Metadata 0 "" "" } :=
  ⟨(delimiter_terminator_choice okParse "f" (initState []) 0 "----"
      { meta := (), lineno := 1, parts := [""], notes := "" } rfl).2.1 rfl,
   (delimiter_terminator_choice okParse "f" (initState []) 0 "---"
      { meta := (), lineno := 1, parts := [""], notes := "" } rfl).2.1 rfl⟩

/-- C7: end-of-input finalization by state: `Initial` records the
missing-initial-delimiter error, `Metadata` records an incomplete-metadata
error at the block's opening line (1-based), `CapturingSlide` /
`CapturingNotes` append the in-progress slide to the deck, and `Aborting`
records nothing further. -/
theorem eof_finalization {N E : Type} (slides : List (SlideContent N))
    (errs : List (SlideLoadError E)) (sources : List YamlSource)
    (ofs : Nat) (delim rawMeta : String) (slide : SlideContent N) :
    finalizeScan ⟨slides, errs, .Initial, sources⟩ =
      ⟨slides, errs ++ [.MissingInitialDelimiter], .Initial, sources⟩
    ∧ finalizeScan ⟨slides, errs, .Metadata ofs delim rawMeta, sources⟩ =
      ⟨slides, errs ++ [.IncompleteMetadata (ofs + 1)], .Metadata ofs delim rawMeta, sources⟩
    ∧ finalizeScan ⟨slides, errs, .CapturingSlide slide, sources⟩ =
      ⟨slides ++ [slide], errs, .CapturingSlide slide, sources⟩
    ∧ finalizeScan ⟨slides, errs, .CapturingNotes slide, sources⟩ =
      ⟨slides ++ [slide], errs, .CapturingNotes slide, sources⟩
    ∧ finalizeScan ⟨slides, errs, .Aborting, sources⟩ = ⟨slides, errs, .Aborting, sources⟩ :=
  ⟨rfl, rfl, rfl, rfl, rfl⟩

/-- C3: the load is all-or-nothing — if the collected error list is empty
the assembled deck is returned; if it is non-empty the full error list is
returned and no slides at all (the error value carries only diagnostics). -/
theorem load_all_or_nothing {N E : Type} (parse : Nat → String → Except E N)
    (fname : String) (sources₀ : List YamlSource) (text : String) :
    ((scanFile parse fname sources₀ text).errs = [] →
      SlideFile.load parse fname sources₀ text =
        .ok { fname := fname, slides := (scanFile parse fname sources₀ text).slides })
    ∧ (∀ errs, (scanFile parse fname sources₀ text).errs = errs → errs ≠ [] →
        SlideFile.load parse fname sources₀ text = .error errs) := by
  constructor
  · intro h
    simp [SlideFile.load, h]
  · intro errs h hne
    subst h
    simp [SlideFile.load, List.isEmpty_iff, hne]

/-- C3 (witness): a clean file loads to its deck; a file with a bad second
metadata block yields exactly its error list and no deck. -/
theorem load_all_or_nothing_witness :
    SlideFile.load okParse "f" [] "---\n\nhello\n" =
      .ok { fname := "f", slides := (scanFile okParse "f" [] "---\n\nhello\n").slides }
    ∧ SlideFile.load failParse "f" [] "---\nmeta\n" =
      .error [SlideLoadError.IncompleteMetadata 1] :=
  ⟨(load_all_or_nothing okParse "f" [] "---\n\nhello\n").1 rfl,
   (load_all_or_nothing failParse "f" [] "---\nmeta\n").2
     [SlideLoadError.IncompleteMetadata 1] rfl (by simp)⟩

/-- C1 (amended): the scanner classifies a line as a delimiter iff every
character in it is `'-'`; the empty line vacuously satisfies this and IS a
delimiter.  The classification governs all four line-consuming states, so an
empty line in a slide body or notes finalizes the slide and opens a new
(blank-line-terminated) metadata block rather than being ordinary content. -/
theorem delimiter_classification {N E : Type} (parse : Nat → String → Except E N)
    (fname : String) (st : ScanState N E) (lineofs : Nat) (line : String)
    (slide : SlideContent N) :
    (isDelimiter line = true ↔ ∀ c ∈ line.data, c = '-')
    ∧ isDelimiter "" = true
    ∧ (st.mode = .Initial →
        ((stepLine parse fname st lineofs line).isSome = true ↔ isDelimiter line = true))
    ∧ (st.mode = .CapturingSlide slide → isDelimiter line = true →
        stepLine parse fname st lineofs line =
          some { st with slides := st.slides ++ [slide], mode := openMetadata lineofs line })
    ∧ (st.mode = .CapturingSlide slide → isDelimiter line = false →
        line ≠ "***" → line ≠ "???" →
        stepLine parse fname st lineofs line =
          some { st with
                   mode := .CapturingSlide
                     { slide with parts := pushLineToLastPart slide.parts line } })
    ∧ (st.mode = .CapturingNotes slide → isDelimiter line = true →
        stepLine parse fname st lineofs line =
          some { st with slides := st.slides ++ [slide], mode := openMetadata lineofs line })
    ∧ (st.mode = .CapturingNotes slide → isDelimiter line = false →
        stepLine parse fname st lineofs line =
          some { st with mode := .CapturingNotes { slide with notes := writelnStr slide.notes line } })
    ∧ (st.mode = .Aborting → isDelimiter line = false →
        stepLine parse fname st lineofs line = some st) := by
  refine ⟨?_, rfl, ?_, ?_, ?_, ?_, ?_, ?_⟩
  · simp [isDelimiter, List.all_eq_true]
  · intro hm
    cases hd : isDelimiter line <;> simp [stepLine, hm, hd]
  · intro hm h
    have hstar : line ≠ "***" := by intro e; subst e; simp [isDelimiter] at h
    have hquery : line ≠ "???" := by intro e; subst e; simp [isDelimiter] at h
    simp [stepLine, hm, h, hstar, hquery]
  · intro hm h hstar hquery
    simp [stepLine, hm, h, hstar, hquery]
  · intro hm h
    simp [stepLine, hm, h]
  · intro hm h
    simp [stepLine, hm, h]
  · intro hm h
    simp [stepLine, hm, h]

/-- C1 (witness): in a slide body, the empty line finalizes the in-progress
slide and opens a blank-line-terminated metadata block. -/
theorem delimiter_classification_witness :
    isDelimiter "" = true
    ∧ stepLine okParse "f"
        ⟨[], [], .CapturingSlide { meta := (), lineno := 1, parts := ["a\n"], notes := "" }, []⟩
        4 "" =
      some ⟨[{ meta := (), lineno := 1, parts := ["a\n"], notes := "" }], [],
        .Metadata 4 "" "", []⟩ :=
  ⟨(delimiter_classification okParse "f"
      ⟨[], [], .CapturingSlide { meta := (), lineno := 1, parts := ["a\n"], notes := "" }, []⟩
      4 "" { meta := (), lineno := 1, parts := ["a\n"], notes := "" }).2.1,
   (delimiter_classification okParse "f"
      ⟨[], [], .CapturingSlide { meta := (), lineno := 1, parts := ["a\n"], notes := "" }, []⟩
      4 "" { meta := (), lineno := 1, parts := ["a\n"], notes := "" }).2.2.2.1 rfl rfl⟩

/-- C8: every slide's fragment list has length ≥ 1 — in every returned deck
and at every point of the scan (the in-progress slide of a capturing mode
included, since a new slide starts with exactly one empty fragment) — and a
`"***"` line inside a slide body pushes one new empty fragment, increasing
the fragment count by exactly one. -/
theorem fragments_invariant {N E : Type} (parse : Nat → String → Except E N)
    (fname : String) (sources₀ : List YamlSource) (text : String) :
    (∀ deck, SlideFile.load parse fname sources₀ text = .ok deck →
       ∀ s ∈ deck.slides, 1 ≤ s.parts.length)
    ∧ (∀ (ls : List (Nat × String)) (slide : SlideContent N),
        modeSlide? (processLines parse fname (initState (E := E) sources₀) ls).mode = some slide →
          1 ≤ slide.parts.length)
    ∧ (∀ (st : ScanState N E) (slide : SlideContent N) (lineofs : Nat),
        st.mode = .CapturingSlide slide →
          stepLine parse fname st lineofs "***" =
            some { st with mode := .CapturingSlide { slide with parts := slide.parts ++ [""] } }
          ∧ (slide.parts ++ [""]).length = slide.parts.length + 1) := by
  refine ⟨?_, ?_, ?_⟩
  · intro deck hld s hmem
    rw [load_ok_slides hld] at hmem
    have hinv := finalizeScan_slideOk
      (processLines_inv parse fname (rustLines text).enum _ (initState_inv sources₀))
    exact List.length_pos.mpr (hinv s hmem).1
  · intro ls slide hms
    exact List.length_pos.mpr
      ((processLines_inv parse fname ls _ (initState_inv sources₀)).2.1 slide hms).1
  · intro st slide lineofs hm
    exact ⟨by simp [stepLine, hm], by simp⟩

/-- C8 (witness): a slide from a concrete successful load has one fragment,
and a `"***"` line pushes a second (empty) fragment. -/
theorem fragments_invariant_witness :
    1 ≤ ({ meta := (), lineno := 1, parts := ["hello\n"], notes := "" } : SlideContent Unit).parts.length
    ∧ stepLine okParse "f"
        ⟨[], [], .CapturingSlide { meta := (), lineno := 1, parts := [""], notes := "" }, []⟩
        5 "***" =
      some ⟨[], [], .CapturingSlide { meta := (), lineno := 1, parts := ["", ""], notes := "" }, []⟩ :=
  ⟨(fragments_invariant okParse "f" [] "---\n\nhello\n").1 _ rfl
      { meta := (), lineno := 1, parts := ["hello\n"], notes := "" } (by decide),
   ((fragments_invariant okParse "f" [] "---\n\nhello\n").2.2
      ⟨[], [], .CapturingSlide { meta := (), lineno := 1, parts := [""], notes := "" }, []⟩
      { meta := (), lineno := 1, parts := [""], notes := "" } 5 rfl).1⟩

/-- C9: notes are absent until a `"???"` line is seen (while capturing
fragments the in-progress slide's notes are empty); the first `"???"` line
switches to note capture without being recorded anywhere; afterwards every
non-delimiter line — a second `"???"` included, with no re-entry into
fragment capture — is appended to the notes text rather than to any
fragment. -/
theorem notes_capture {N E : Type} (parse : Nat → String → Except E N) (fname : String) :
    (∀ (st : ScanState N E) (slide : SlideContent N) (lineofs : Nat),
        st.mode = .CapturingSlide slide →
          stepLine parse fname st lineofs "???" = some { st with mode := .CapturingNotes slide })
    ∧ (∀ (st : ScanState N E) (slide : SlideContent N) (lineofs : Nat) (line : String),
        st.mode = .CapturingNotes slide → isDelimiter line = false →
          stepLine parse fname st lineofs line =
            some { st with
                     mode := .CapturingNotes { slide with notes := slide.notes ++ line ++ "\n" } })
    ∧ (∀ (st : ScanState N E) (slide : SlideContent N) (lineofs : Nat),
        st.mode = .CapturingNotes slide →
          stepLine parse fname st lineofs "???" =
            some { st with
                     mode := .CapturingNotes { slide with notes := writelnStr slide.notes "???" } })
    ∧ (∀ (sources₀ : List YamlSource) (ls : List (Nat × String)) (slide : SlideContent N),
        (processLines parse fname (initState (E := E) sources₀) ls).mode = .CapturingSlide slide →
          slide.notes = "") := by
  have hq : isDelimiter "???" = false := rfl
  refine ⟨?_, ?_, ?_, ?_⟩
  · intro st slide lineofs hm
    simp [stepLine, hm]
  · intro st slide lineofs line hm h
    simp [stepLine, hm, h, writelnStr]
  · intro st slide lineofs hm
    simp [stepLine, hm, hq]
  · intro sources₀ ls slide hm
    exact (processLines_inv parse fname ls _ (initState_inv sources₀)).2.2 slide hm

/-- C9 (witness): concrete transitions — first `"???"` switches modes and
records nothing; a second `"???"` becomes notes text `"???\n"`. -/
theorem notes_capture_witness :
    stepLine okParse "f"
        ⟨[], [], .CapturingSlide { meta := (), lineno := 1, parts := ["a\n"], notes := "" }, []⟩
        3 "???" =
      some ⟨[], [], .CapturingNotes { meta := (), lineno := 1, parts := ["a\n"], notes := "" }, []⟩
    ∧ stepLine okParse "f"
        ⟨[], [], .CapturingNotes { meta := (), lineno := 1, parts := ["a\n"], notes := "" }, []⟩
        4 "???" =
      some ⟨[], [],
        .CapturingNotes { meta := (), lineno := 1, parts := ["a\n"], notes := "???\n" }, []⟩ :=
  ⟨(notes_capture okParse "f").1
      ⟨[], [], .CapturingSlide { meta := (), lineno := 1, parts := ["a\n"], notes := "" }, []⟩
      { meta := (), lineno := 1, parts := ["a\n"], notes := "" } 3 rfl,
   (notes_capture okParse "f").2.2.1
      ⟨[], [], .CapturingNotes { meta := (), lineno := 1, parts := ["a\n"], notes := "" }, []⟩
      { meta := (), lineno := 1, parts := ["a\n"], notes := "" } 4 rfl⟩

/-- C10: in every successfully returned deck each fragment string and each
notes string is empty or ends with `'\n'` (each stored line carries exactly
one `'\n'` appended by `writeln`); the standard line iterator normalizes
CRLF endings and an optional final newline before storage; and a slide still
in fragment capture (no `"???"` seen in its body) has empty notes. -/
theorem stored_text_shape {N E : Type} (parse : Nat → String → Except E N)
    (fname : String) (sources₀ : List YamlSource) (text : String) :
    (∀ deck, SlideFile.load parse fname sources₀ text = .ok deck →
       ∀ s ∈ deck.slides,
         (∀ p ∈ s.parts, nlTerminated p = true) ∧ nlTerminated s.notes = true)
    ∧ (rustLines "a\r\nb\r\nc" = ["a", "b", "c"] ∧ rustLines "a\nb\n" = rustLines "a\nb")
    ∧ (∀ (ls : List (Nat × String)) (slide : SlideContent N),
        (processLines parse fname (initState (E := E) sources₀) ls).mode = .CapturingSlide slide →
          slide.notes = "") := by
  refine ⟨?_, ⟨by decide, by decide⟩, ?_⟩
  · intro deck hld s hmem
    rw [load_ok_slides hld] at hmem
    have hinv := finalizeScan_slideOk
      (processLines_inv parse fname (rustLines text).enum _ (initState_inv sources₀))
    exact ⟨(hinv s hmem).2.1, (hinv s hmem).2.2⟩
  · intro ls slide hm
    exact (processLines_inv parse fname ls _ (initState_inv sources₀)).2.2 slide hm

/-- C10 (witness): the fragment and notes strings of a concrete loaded
slide are `'\n'`-terminated or empty. -/
theorem stored_text_shape_witness :
    nlTerminated "hello\n" = true ∧ nlTerminated "" = true :=
  ⟨((stored_text_shape okParse "f" [] "---\n\nhello\n").1 _ rfl
      { meta := (), lineno := 1, parts := ["hello\n"], notes := "" } (by decide)).1
      "hello\n" (by decide),
   ((stored_text_shape okParse "f" [] "---\n\nhello\n").1 _ rfl
      { meta := (), lineno := 1, parts := ["hello\n"], notes := "" } (by decide)).2⟩

end Harvey
